import Mathlib

/-!
Verification of the data-engineering project analyzer.

The development shallowly embeds the core of the analyzer:
`ConnectorIdentifier.identify_file_type`, `identify_connectors`,
`extract_imports`, `extract_sql_objects`, `analyze_file`
(src/connector_identifier.py) and the aggregation loop of
`MetadataScanner.scan` (src/metadata_scanner.py).

Modelling conventions:
* A Python `str` is a sequence of Unicode code points, modelled as `List Nat`.
  Case maps and the character classes of Python's `re` module (`\w`, `\s`)
  are modelled on the ASCII range, which covers every catalog pattern and
  every input exercised by the claims.
* The six fixed SQL regexes of `extract_sql_objects` all have the shape
  `KW(\s+KW)*\s+([`"]?\w+[`"]?\.)?([`"]?\w+[`"]?\.)?([`"]?\w+[`"]?)`.
  Their Python (leftmost, backtracking, non-overlapping `finditer`)
  semantics on this shape is deterministic and is implemented directly
  below (`scanPattern`); the name used by the code is the last non-empty
  captured group, which is always the final identifier segment.
* The configurable connection-pattern regexes of `identify_connectors` are
  arbitrary catalog data; `re.finditer` on them is modelled by an oracle
  parameter (`ReOracle`), with `none` standing for `re.error`.
* A Python `set` of names is modelled as a duplicate-free list in first
  insertion order; `list(s)` returns its elements in an unspecified order,
  which this model fixes to insertion order.
* A Python `dict` is modelled as an association list in key insertion
  order; assignment to an existing key replaces the value in place.
-/

namespace Analyzer

/-- Text: a sequence of Unicode code points, modelling a Python `str`. -/
abbrev Str := List Nat

/-- Code points of a Lean string literal, for concrete inputs. -/
def str (s : String) : Str := s.toList.map Char.toNat

/-- ASCII model of Python `str.upper` on one code point. -/
def upN (n : Nat) : Nat := if 97 ≤ n ∧ n ≤ 122 then n - 32 else n

/-- ASCII model of Python `str.lower` on one code point. -/
def loN (n : Nat) : Nat := if 65 ≤ n ∧ n ≤ 90 then n + 32 else n

/-- `content.upper()` (ASCII model). -/
def toUpperStr (s : Str) : Str := s.map upN

/-- `content.lower()` (ASCII model). -/
def toLowerStr (s : Str) : Str := s.map loN

/-- Python `\s` (ASCII): space, tab, newline, carriage return, vtab, formfeed. -/
def isSpace (n : Nat) : Bool := n = 32 || n = 9 || n = 10 || n = 13 || n = 11 || n = 12

/-- Python `\w` (ASCII): letters, digits, underscore. -/
def isWordChar (n : Nat) : Bool :=
  (65 ≤ n && n ≤ 90) || (97 ≤ n && n ≤ 122) || (48 ≤ n && n ≤ 57) || n = 95

/-- The character class `[`"]` of the SQL regexes: backtick or double quote. -/
def isQuoteChar (n : Nat) : Bool := n = 96 || n = 34

/-- The characters stripped from an extracted name by `.strip('`"\x27 ')`. -/
def isStripChar (n : Nat) : Bool := n = 96 || n = 34 || n = 39 || n = 32

/-- Does `p` occur as a prefix of `s`? -/
def strStarts : Str → Str → Bool
  | [], _ => true
  | _ :: _, [] => false
  | p :: ps, c :: cs => p = c && strStarts ps cs

/-- Python's `pat in s`: literal substring test. -/
def isSubstr (pat : Str) : Str → Bool
  | [] => strStarts pat []
  | c :: t => strStarts pat (c :: t) || isSubstr pat t

/-- Python `line.strip()` (ASCII whitespace model). -/
def stripStr (s : Str) : Str :=
  ((s.dropWhile isSpace).reverse.dropWhile isSpace).reverse

/-- Python `content.split('\n')`. -/
def splitNL : Str → List Str
  | [] => [[]]
  | c :: t =>
    if c = 10 then [] :: splitNL t
    else
      match splitNL t with
      | [] => [[c]]
      | h :: r => (c :: h) :: r

/-! ### The SQL-object scanner

`extract_sql_objects` (src/connector_identifier.py lines 152-196) applies six
regexes to the upper-cased content.  Each regex is a sequence of literal
keywords separated by `\s+`, followed by an optionally qualified identifier
`([`"]?\w+[`"]?\.)?([`"]?\w+[`"]?\.)?([`"]?\w+[`"]?)`. -/

/-- One `[`"]?\w+[`"]?` segment starting after an optional opening quote
`q1`; returns the captured text (quotes included) and the rest. -/
def segCore (q1 : Str) (s1 : Str) : Option (Str × Str) :=
  let w := s1.takeWhile isWordChar
  if w.isEmpty then none
  else
    match s1.dropWhile isWordChar with
    | [] => some (q1 ++ w, [])
    | c :: t => if isQuoteChar c then some (q1 ++ w ++ [c], t) else some (q1 ++ w, c :: t)

/-- One `[`"]?\w+[`"]?` segment (greedy, deterministic on this shape). -/
def seg : Str → Option (Str × Str)
  | [] => none
  | c :: t => if isQuoteChar c then segCore [c] t else segCore [] (c :: t)

/-- A segment followed by a literal dot — the body of the two optional
leading groups; only the rest is needed (their captures are never the last
non-empty group of a successful match). -/
def segDot (s : Str) : Option Str :=
  match seg s with
  | none => none
  | some cr =>
    match cr.2 with
    | [] => none
    | c :: r2 => if c = 46 then some r2 else none

/-- The qualified-identifier tail `(seg\.)?(seg\.)?(seg)` with Python's
backtracking (the optional groups are given up when the mandatory final
segment cannot otherwise match).  Returns the capture of the last non-empty
group — always the final segment — and the rest of the text. -/
def matchQual (s : Str) : Option (Str × Str) :=
  match segDot s with
  | some s1 =>
    match segDot s1 with
    | some s2 =>
      match seg s2 with
      | some cr => some cr
      | none => seg s1
    | none =>
      match seg s1 with
      | some cr => some cr
      | none => seg s
  | none => seg s

/-- `\s+`: one or more whitespace characters, consumed greedily. -/
def spaces1 : Str → Option Str
  | [] => none
  | c :: t => if isSpace c then some (t.dropWhile isSpace) else none

/-- Match the literal keyword words of a pattern, each followed by `\s+`. -/
def matchWords : List Str → Str → Option Str
  | [], s => some s
  | w :: ws, s =>
    if strStarts w s then
      match spaces1 (s.drop w.length) with
      | some r => matchWords ws r
      | none => none
    else none

/-- Attempt one full pattern match (`w` then `ws`, `\s+`-separated, then the
qualified identifier) at the start of `s`. -/
def tryMatch (w : Str) (ws : List Str) (s : Str) : Option (Str × Str) :=
  match matchWords (w :: ws) s with
  | some r => matchQual r
  | none => none

theorem strStarts_le : ∀ (p s : Str), strStarts p s = true → p.length ≤ s.length
  | [], _, _ => Nat.zero_le _
  | p :: ps, [], h => by simp [strStarts] at h
  | p :: ps, c :: cs, h => by
    simp only [strStarts, Bool.and_eq_true] at h
    have := strStarts_le ps cs h.2
    simp only [List.length_cons]
    omega

theorem dropWhile_len_le (p : Nat → Bool) : ∀ l : Str, (l.dropWhile p).length ≤ l.length
  | [] => Nat.le_refl _
  | c :: t => by
    by_cases h : p c
    · simp only [List.dropWhile, h]
      exact Nat.le_succ_of_le (dropWhile_len_le p t)
    · simp [List.dropWhile, h]

theorem segCore_len {q1 s1 cap r} (h : segCore q1 s1 = some (cap, r)) :
    r.length < s1.length := by
  unfold segCore at h
  have hsplit : (s1.takeWhile isWordChar).length + (s1.dropWhile isWordChar).length
      = s1.length := by
    rw [← List.length_append, List.takeWhile_append_dropWhile]
  by_cases hw : (s1.takeWhile isWordChar).isEmpty
  · simp [hw] at h
  · simp only [hw, if_false, Bool.false_eq_true] at h
    have hwlen : 0 < (s1.takeWhile isWordChar).length := by
      cases hl : s1.takeWhile isWordChar with
      | nil => rw [hl] at hw; simp [List.isEmpty] at hw
      | cons a b => simp [hl]
    revert h
    cases hd : s1.dropWhile isWordChar with
    | nil =>
      intro h
      obtain ⟨-, h2⟩ := Option.some.injEq _ _ ▸ (Prod.mk.injEq _ _ _ _ ▸ Option.some.inj h)
      subst h2
      simp only [hd, List.length_nil] at hsplit ⊢
      omega
    | cons c t =>
      intro h
      by_cases hq : isQuoteChar c
      · simp only [hq, if_true] at h
        obtain ⟨-, h2⟩ := Prod.mk.injEq _ _ _ _ ▸ Option.some.inj h
        subst h2
        simp only [hd, List.length_cons] at hsplit
        omega
      · simp only [hq, if_false, Bool.false_eq_true] at h
        obtain ⟨-, h2⟩ := Prod.mk.injEq _ _ _ _ ▸ Option.some.inj h
        subst h2
        simp only [hd, List.length_cons] at hsplit ⊢
        omega

theorem seg_len {s cap r} (h : seg s = some (cap, r)) : r.length < s.length := by
  cases s with
  | nil => simp [seg] at h
  | cons c t =>
    unfold seg at h
    by_cases hq : isQuoteChar c
    · simp only [hq, if_true] at h
      have := segCore_len h
      simp only [List.length_cons]
      omega
    · simp only [hq, if_false, Bool.false_eq_true] at h
      exact segCore_len h

theorem segDot_len {s r} (h : segDot s = some r) : r.length < s.length := by
  unfold segDot at h
  cases hs : seg s with
  | none => rw [hs] at h; exact absurd h (by simp)
  | some cr =>
    obtain ⟨cap, rest⟩ := cr
    rw [hs] at h
    dsimp only at h
    cases hr : rest with
    | nil => rw [hr] at h; exact absurd h (by simp)
    | cons c r2 =>
      rw [hr] at h
      dsimp only at h
      by_cases hc : c = 46
      · simp only [hc, if_true] at h
        have := seg_len hs
        cases h
        rw [hr] at this
        simp only [List.length_cons] at this
        omega
      · simp [hc] at h

theorem matchQual_len {s cap r} (h : matchQual s = some (cap, r)) : r.length < s.length := by
  unfold matchQual at h
  cases h1 : segDot s with
  | none =>
    rw [h1] at h
    exact seg_len h
  | some s1 =>
    rw [h1] at h
    dsimp only at h
    have hs1 := segDot_len h1
    cases h2 : segDot s1 with
    | none =>
      rw [h2] at h
      dsimp only at h
      cases h3 : seg s1 with
      | none =>
        rw [h3] at h
        dsimp only at h
        exact seg_len h
      | some cr =>
        obtain ⟨a, b⟩ := cr
        rw [h3] at h
        dsimp only at h
        cases h
        have := seg_len h3
        omega
    | some s2 =>
      rw [h2] at h
      dsimp only at h
      have hs2 := segDot_len h2
      cases h4 : seg s2 with
      | none =>
        rw [h4] at h
        dsimp only at h
        have := seg_len h
        omega
      | some cr =>
        obtain ⟨a, b⟩ := cr
        rw [h4] at h
        dsimp only at h
        cases h
        have := seg_len h4
        omega

theorem spaces1_lt {s r} (h : spaces1 s = some r) : r.length < s.length := by
  cases s with
  | nil => simp [spaces1] at h
  | cons c t =>
    unfold spaces1 at h
    by_cases hc : isSpace c
    · simp only [hc, if_true] at h
      cases h
      have := dropWhile_len_le isSpace t
      simp only [List.length_cons]
      omega
    · simp [hc] at h

theorem matchWords_le : ∀ (ws : List Str) (s r : Str), matchWords ws s = some r →
    r.length ≤ s.length
  | [], s, r, h => by cases h; exact Nat.le_refl _
  | w :: ws, s, r, h => by
    unfold matchWords at h
    by_cases hw : strStarts w s
    · simp only [hw, if_true] at h
      cases hsp : spaces1 (s.drop w.length) with
      | none => rw [hsp] at h; exact absurd h (by simp)
      | some r1 =>
        rw [hsp] at h
        have h1 := spaces1_lt hsp
        have h2 := matchWords_le ws r1 r h
        have h3 : (s.drop w.length).length ≤ s.length := by
          rw [List.length_drop]; omega
        omega
    · simp [hw] at h

theorem matchWords_cons_lt {w ws s r} (h : matchWords (w :: ws) s = some r) :
    r.length < s.length := by
  unfold matchWords at h
  by_cases hw : strStarts w s
  · simp only [hw, if_true] at h
    cases hsp : spaces1 (s.drop w.length) with
    | none => rw [hsp] at h; exact absurd h (by simp)
    | some r1 =>
      rw [hsp] at h
      have h1 := spaces1_lt hsp
      have h2 := matchWords_le ws r1 r h
      have h3 : (s.drop w.length).length ≤ s.length := by
        rw [List.length_drop]; omega
      omega
  · simp [hw] at h

theorem tryMatch_len {w ws s cap r} (h : tryMatch w ws s = some (cap, r)) :
    r.length < s.length := by
  unfold tryMatch at h
  cases hm : matchWords (w :: ws) s with
  | none => rw [hm] at h; exact absurd h (by simp)
  | some r1 =>
    rw [hm] at h
    have h1 := matchWords_cons_lt hm
    have h2 := matchQual_len h
    omega

/-- `re.finditer` of one SQL pattern over the text: scan left to right,
emit the last captured group of each non-overlapping match, resume after
each match end.  The fuel argument only bounds the recursion; any fuel
`≥ s.length` gives the same result (`scanPatternF_fuel`), because every
match consumes at least one character (`tryMatch_len`). -/
def scanPatternF (w : Str) (ws : List Str) : Nat → Str → List Str
  | 0, _ => []
  | _ + 1, [] => []
  | fuel + 1, c :: t =>
    match tryMatch w ws (c :: t) with
    | some capr => capr.1 :: scanPatternF w ws fuel capr.2
    | none => scanPatternF w ws fuel t

/-- `re.finditer` of one SQL pattern, fuelled adequately. -/
def scanPattern (w : Str) (ws : List Str) (s : Str) : List Str :=
  scanPatternF w ws s.length s

theorem scanPatternF_fuel (w : Str) (ws : List Str) :
    ∀ (fuel fuel2 : Nat) (s : Str), s.length ≤ fuel → s.length ≤ fuel2 →
      scanPatternF w ws fuel s = scanPatternF w ws fuel2 s
  | 0, 0, _, _, _ => rfl
  | 0, _ + 1, s, h1, _ => by
    have : s = [] := List.eq_nil_of_length_eq_zero (Nat.le_zero.1 h1)
    subst this
    rfl
  | _ + 1, 0, s, _, h2 => by
    have : s = [] := List.eq_nil_of_length_eq_zero (Nat.le_zero.1 h2)
    subst this
    rfl
  | _ + 1, _ + 1, [], _, _ => rfl
  | fuel + 1, fuel2 + 1, c :: t, h1, h2 => by
    unfold scanPatternF
    simp only [List.length_cons] at h1 h2
    cases hm : tryMatch w ws (c :: t) with
    | none =>
      exact scanPatternF_fuel w ws fuel fuel2 t (by omega) (by omega)
    | some capr =>
      have hlt : capr.2.length < (c :: t).length :=
        @tryMatch_len w ws (c :: t) capr.1 capr.2 (by rw [hm])
      simp only [List.length_cons] at hlt
      dsimp only
      rw [scanPatternF_fuel w ws fuel fuel2 capr.2 (by omega) (by omega)]

/-! ### extract_sql_objects -/

/-- Result of `extract_sql_objects`: the dictionary
`{'tables': ..., 'views': ..., 'schemas': ...}` of name sets, each set
modelled as a duplicate-free list in insertion order. -/
structure SqlObjects where
  tables : List Str
  views : List Str
  schemas : List Str
deriving DecidableEq

/-- `set.add`: insertion-ordered model of a Python set. -/
def addSet (l : List Str) (x : Str) : List Str := if x ∈ l then l else l ++ [x]

/-- The `patterns` dict of `extract_sql_objects`: per object kind, the
keyword-word sequences of its regexes (each regex is the words joined by
`\s+` followed by the qualified-identifier tail). -/
def sqlPatterns : List (String × List (Str × List Str)) :=
  [("tables", [(str "FROM", []), (str "JOIN", []), (str "INTO", []), (str "UPDATE", [])]),
   ("views", [(str "CREATE", [str "VIEW"]), (str "CREATE", [str "OR", str "REPLACE", str "VIEW"])])]

/-- The stoplist `['SELECT', 'AS', 'ON']`. -/
def stopNames : List Str := [str "SELECT", str "AS", str "ON"]

/-- `obj_name = groups[-1].strip('`"\x27 ')`. -/
def stripName (s : Str) : Str :=
  ((s.dropWhile isStripChar).reverse.dropWhile isStripChar).reverse

/-- `objects[obj_type].add(name)`. -/
def addObj (o : SqlObjects) (key : String) (n : Str) : SqlObjects :=
  if key = "tables" then { o with tables := addSet o.tables n }
  else if key = "views" then { o with views := addSet o.views n }
  else if key = "schemas" then { o with schemas := addSet o.schemas n }
  else o

/-- Process one match capture: strip quotes, filter the stoplist,
lower-case, add to the set of its object kind. -/
def procName (o : SqlObjects) (key : String) (cap : Str) : SqlObjects :=
  if (stripName cap).isEmpty then o
  else if toUpperStr (stripName cap) ∈ stopNames then o
  else addObj o key (toLowerStr (stripName cap))

/-- The body of `extract_sql_objects` run on the already upper-cased text. -/
def extractFromUpper (up : Str) : SqlObjects :=
  sqlPatterns.foldl
    (fun o kp =>
      kp.2.foldl
        (fun o pat => (scanPattern pat.1 pat.2 up).foldl (fun o cap => procName o kp.1 cap) o)
        o)
    { tables := [], views := [], schemas := [] }

/-- `ConnectorIdentifier.extract_sql_objects` (lines 152-196).  The
`file_type` argument is accepted but does not gate the extraction. -/
def extract_sql_objects (content : Str) (fileType : String) : SqlObjects :=
  extractFromUpper (toUpperStr content)

/-! ### The pattern catalog and the file classifier -/

/-- One entry of the `file_types` section of the catalog. -/
structure FileTypeSpec where
  extensions : List String
  keywords : List Str
deriving DecidableEq

/-- One entry of the `connectors` section of the catalog; `ctype` models
`patterns.get('type', 'unknown')`, the connection patterns stay opaque
regex sources. -/
structure ConnectorSpec where
  ctype : String
  keywords : List Str
  connectionPatterns : List String
deriving DecidableEq

/-- The loaded pattern catalog (`self.connectors`, `self.file_types`),
each section an association list in key order. -/
structure Config where
  connectors : List (String × ConnectorSpec)
  fileTypes : List (String × FileTypeSpec)

/-- Association-list lookup: first binding of the key, as in a Python dict. -/
def alookup {α β : Type} [DecidableEq α] : List (α × β) → α → Option β
  | [], _ => none
  | kv :: t, c => if kv.1 = c then some kv.2 else alookup t c

/-- `self.file_types.get(name, {})` with defaulted fields. -/
def getFT (cat : Config) (name : String) : FileTypeSpec :=
  (alookup cat.fileTypes name).getD { extensions := [], keywords := [] }

/-- `ConnectorIdentifier._load_config`: a failed load or parse yields the
empty catalog `{'connectors': {}, 'file_types': {}}` instead of raising. -/
def load_config (raw : Option Config) : Config :=
  match raw with
  | some c => c
  | none => { connectors := [], fileTypes := [] }

/-- The file-record fields consumed by the analysis
(`file_info['extension']`, `file_info['relative_path']`). -/
structure FileInfo where
  relative_path : String
  extension : String
deriving DecidableEq

/-- `ConnectorIdentifier.identify_file_type` (lines 41-69). -/
def identify_file_type (cat : Config) (fi : FileInfo) (content : Str) : String :=
  if (getFT cat "databricks_notebook").keywords.any (fun kw => isSubstr kw content) then
    "databricks_notebook"
  else if fi.extension = ".py" then
    if (getFT cat "pyspark").keywords.any (fun kw => isSubstr kw content) then "pyspark"
    else "python"
  else
    match cat.fileTypes.find? (fun ft => ft.2.extensions.contains fi.extension) with
    | some ft => ft.1
    | none => "unknown"

/-! ### The connector detector -/

/-- A detected instance: a keyword hit or a connection-pattern regex hit. -/
inductive MatchInstance where
  | keyword (pattern : Str) (connectorType : String)
  | connection (pattern : String) (matched : Str) (lineNumber : Nat) (connectorType : String)
deriving DecidableEq

/-- The per-connector value stored in the detection result. -/
structure ConnectorHit where
  count : Nat
  ctype : String
  instances : List MatchInstance
deriving DecidableEq

/-- One `re.finditer` match of a connection pattern: `match.group(0)` and
`match.start()`. -/
structure ReMatch where
  matched : Str
  start : Nat
deriving DecidableEq

/-- Oracle for `re.finditer(pattern, content, re.MULTILINE)` over the
configurable connection-pattern regexes; `none` models `re.error`
(the pattern is logged and skipped). -/
abbrev ReOracle := String → Str → Option (List ReMatch)

/-- The keyword instances collected for one connector: one `keyword`
instance per configured keyword occurring anywhere in the text as a
literal substring, regardless of how often it occurs. -/
def kwsFor (spec : ConnectorSpec) (content : Str) : List MatchInstance :=
  spec.keywords.filterMap (fun kw =>
    if isSubstr kw content then some (MatchInstance.keyword kw spec.ctype) else none)

/-- The connection instances for one connector: one `connection` instance
per regex match, with the 1-based line number
`content[:match.start()].count('\n') + 1`; a pattern the oracle rejects
(`re.error`) is skipped. -/
def connsFor (oracle : ReOracle) (spec : ConnectorSpec) (content : Str) :
    List MatchInstance :=
  spec.connectionPatterns.foldl (fun acc p =>
    match oracle p content with
    | none => acc
    | some ms => acc ++ ms.map (fun m =>
        MatchInstance.connection p m.matched
          ((content.take m.start).countP (fun c => c = 10) + 1) spec.ctype)) []

/-- The full instance list of one connector: keyword hits then regex hits. -/
def instancesFor (oracle : ReOracle) (spec : ConnectorSpec) (content : Str) :
    List MatchInstance :=
  kwsFor spec content ++ connsFor oracle spec content

/-- Python dict assignment `d[k] = v`: replace in place, else append. -/
def assocSet {α β : Type} [DecidableEq α] : List (α × β) → α → β → List (α × β)
  | [], k, v => [(k, v)]
  | kv :: t, k, v => if kv.1 = k then (k, v) :: t else kv :: assocSet t k v

/-- The body of the `identify_connectors` loop for one catalog entry. -/
def detStep (oracle : ReOracle) (content : Str) (detected : List (String × ConnectorHit))
    (nc : String × ConnectorSpec) : List (String × ConnectorHit) :=
  if (instancesFor oracle nc.2 content).isEmpty then detected
  else assocSet detected nc.1
    { count := (instancesFor oracle nc.2 content).length, ctype := nc.2.ctype,
      instances := instancesFor oracle nc.2 content }

/-- `ConnectorIdentifier.identify_connectors` (lines 71-121): only
connectors with a non-empty instance list get an entry. -/
def identify_connectors (oracle : ReOracle) (cat : Config) (content : Str) :
    List (String × ConnectorHit) :=
  cat.connectors.foldl (detStep oracle content) []

/-! ### The import extractor -/

/-- The class `[\w\.]`. -/
def classWD (n : Nat) : Bool := isWordChar n || n = 46

/-- `re.match(r'^import\s+[\w\.]+', line)` as a Boolean test (a prefix
match suffices for `re.match`). -/
def matchImp1 (l : Str) : Bool :=
  if strStarts (str "import") l then
    match spaces1 (l.drop 6) with
    | some r =>
      match r with
      | [] => false
      | c :: _ => classWD c
    | none => false
  else false

/-- `re.match(r'^from\s+[\w\.]+\s+import\s+.*', line)` as a Boolean test. -/
def matchImp2 (l : Str) : Bool :=
  if strStarts (str "from") l then
    match spaces1 (l.drop 4) with
    | some r =>
      if (r.takeWhile classWD).isEmpty then false
      else
        match spaces1 (r.dropWhile classWD) with
        | some r2 =>
          if strStarts (str "import") r2 then
            match spaces1 (r2.drop 6) with
            | some _ => true
            | none => false
          else false
        | none => false
    | none => false
  else false

/-- The file types whose lines are scanned for import statements. -/
def scriptTypes : List String := ["python", "pyspark", "databricks_notebook"]

/-- `ConnectorIdentifier.extract_imports` (lines 123-150): the stripped
line is appended verbatim when either pattern matches. -/
def extract_imports (content : Str) (fileType : String) : List Str :=
  if fileType ∈ scriptTypes then
    (splitNL content).filterMap (fun line =>
      let l := stripStr line
      if matchImp1 l || matchImp2 l then some l else none)
  else []

/-! ### analyze_file -/

/-- The per-file analysis record built by `analyze_file` (lines 198-227). -/
structure FileAnalysis where
  file_type : String
  lines_of_code : Nat
  total_lines : Nat
  connectors : List (String × ConnectorHit)
  imports : List Str
  sql_objects : SqlObjects
  has_spark : Bool
  has_sql : Bool
deriving DecidableEq

/-- `ConnectorIdentifier.analyze_file`. -/
def analyze_file (oracle : ReOracle) (cat : Config) (fi : FileInfo) (content : Str) :
    FileAnalysis :=
  let fileType := identify_file_type cat fi content
  let connectors := identify_connectors oracle cat content
  let imports := extract_imports content fileType
  let sqlObjects := extract_sql_objects content fileType
  let lines := splitNL content
  let loc := lines.countP (fun l =>
    match stripStr l with
    | [] => false
    | c :: _ => c != 35)
  { file_type := fileType
    lines_of_code := loc
    total_lines := lines.length
    connectors := connectors
    imports := imports
    sql_objects := sqlObjects
    has_spark := isSubstr (str "pyspark") (str fileType) ||
      isSubstr (str "spark") (toLowerStr content)
    has_sql := !sqlObjects.tables.isEmpty || fileType == "sql" }

/-! ### The scan aggregation loop (MetadataScanner.scan) -/

/-- A file record merged with its analysis, as appended to `analyzed_files`. -/
abbrev Analyzed := FileInfo × FileAnalysis

/-- One entry of `connector_summary`. -/
structure ConnEntry where
  total_files : Nat
  total_instances : Nat
  ctype : String
  files : List String
deriving DecidableEq

/-- In-place update of the first binding of `k` (Python dict mutation). -/
def assocModify {α β : Type} [DecidableEq α] : List (α × β) → α → (β → β) → List (α × β)
  | [], _, _ => []
  | kv :: t, k, f => if kv.1 = k then (kv.1, f kv.2) :: t else kv :: assocModify t k f

/-- The zeroed `connector_summary` entry created on first sight. -/
def zeroCE (ct : String) : ConnEntry :=
  { total_files := 0, total_instances := 0, ctype := ct, files := [] }

/-- The three `+=`/`append` mutations of one `connector_summary` entry. -/
def bumpCE (e : ConnEntry) (cnt : Nat) (rel : String) : ConnEntry :=
  { total_files := e.total_files + 1, total_instances := e.total_instances + cnt,
    ctype := e.ctype, files := e.files ++ [rel] }

/-- The `connector_summary` update for one detected connector of one file
(scan lines 76-86): create a zeroed entry on first sight, then add one
file, `count` instances, and the relative path. -/
def updConn (acc : List (String × ConnEntry)) (rel : String) (nh : String × ConnectorHit) :
    List (String × ConnEntry) :=
  let acc1 :=
    if (alookup acc nh.1).isSome then acc
    else acc ++ [(nh.1, zeroCE nh.2.ctype)]
  assocModify acc1 nh.1 (fun e => bumpCE e nh.2.count rel)

/-- `import_summary[imp] = import_summary.get(imp, 0) + 1` (scan lines 88-90). -/
def impIncr (acc : List (Str × Nat)) (imp : Str) : List (Str × Nat) :=
  if (alookup acc imp).isSome then assocModify acc imp (fun n => n + 1)
  else acc ++ [(imp, 1)]

/-- Fold one analyzed file into `connector_summary`. -/
def connStep (acc : List (String × ConnEntry)) (fa : Analyzed) : List (String × ConnEntry) :=
  fa.2.connectors.foldl (fun a nh => updConn a fa.1.relative_path nh) acc

/-- Fold one analyzed file into `import_summary`. -/
def impStep (acc : List (Str × Nat)) (fa : Analyzed) : List (Str × Nat) :=
  fa.2.imports.foldl impIncr acc

/-- Fold one file's extracted names into a project-wide name set. -/
def setStep (acc : List Str) (l : List Str) : List Str := l.foldl addSet acc

/-- The accumulators of the scan loop. -/
structure ScanState where
  analyzed : List Analyzed
  connSum : List (String × ConnEntry)
  impSum : List (Str × Nat)
  tblSet : List Str
  viewSet : List Str

/-- All accumulators start empty. -/
def initState : ScanState :=
  { analyzed := [], connSum := [], impSum := [], tblSet := [], viewSet := [] }

/-- One iteration of the scan loop (lines 63-104).  `analyze_file` is a
total function here, so the `except` branch of the loop — which would
append an `{'error': ..., 'file_type': 'error'}` record — has no
counterpart: no reachable Python path raises, because
`FileUtils.read_file_content` converts read failures into sentinel text
before this loop runs. -/
def scanStep (oracle : ReOracle) (cat : Config) (st : ScanState) (fc : FileInfo × Str) :
    ScanState :=
  let analysis := analyze_file oracle cat fc.1 fc.2
  { analyzed := st.analyzed ++ [(fc.1, analysis)]
    connSum := connStep st.connSum (fc.1, analysis)
    impSum := impStep st.impSum (fc.1, analysis)
    tblSet := setStep st.tblSet analysis.sql_objects.tables
    viewSet := setStep st.viewSet analysis.sql_objects.views }

/-- The whole per-file loop over the discovered (record, content) pairs. -/
def scanFold (oracle : ReOracle) (cat : Config) (files : List (FileInfo × Str)) : ScanState :=
  files.foldl (scanStep oracle cat) initState

/-- Stable insertion: `x` goes before the first element `y` with
`le x y`. -/
def insertLe {α : Type} (le : α → α → Bool) (x : α) : List α → List α
  | [] => [x]
  | y :: ys => if le x y then x :: y :: ys else y :: insertLe le x ys

/-- Stable insertion sort; with `le x y` meaning "x may sit before y" this
has the same result as any stable sort, in particular Python's. -/
def sortLe {α : Type} (le : α → α → Bool) (l : List α) : List α :=
  l.foldr (insertLe le) []

/-- The comparison of `sorted(items, key=lambda x: x[1], reverse=True)`:
an earlier item stays before a later one iff its count is ≥. -/
def leCnt (a b : Str × Nat) : Bool := b.2 ≤ a.2

/-- Python string `≤`: lexicographic by code point (used by `sorted`). -/
def lexLe : Str → Str → Bool
  | [], _ => true
  | _ :: _, [] => false
  | a :: as, b :: bs => if a < b then true else if b < a then false else lexLe as bs

/-- The final metadata document (the fields derived from the analysis;
scan metadata such as timestamps, and the statistics that merely copy the
walker's output, are omitted except for `total_files`). -/
structure Summary where
  total_files : Nat
  total_loc : Nat
  files_with_spark : Nat
  files_with_sql : Nat
  connector_summary : List (String × ConnEntry)
  total_unique_imports : Nat
  top_imports : List (Str × Nat)
  total_tables : Nat
  total_views : Nat
  tables : List Str
  views : List Str
  files : List Analyzed

/-- `MetadataScanner.scan` on a given sequence of (file record, content)
pairs (file discovery and reading are the collaborators producing them). -/
def scan (oracle : ReOracle) (cat : Config) (files : List (FileInfo × Str)) : Summary :=
  let st := scanFold oracle cat files
  { total_files := files.length
    total_loc := (st.analyzed.map (fun fa => fa.2.lines_of_code)).sum
    files_with_spark := st.analyzed.countP (fun fa => fa.2.has_spark)
    files_with_sql := st.analyzed.countP (fun fa => fa.2.has_sql)
    connector_summary := st.connSum
    total_unique_imports := st.impSum.length
    top_imports := (sortLe leCnt st.impSum).take 20
    total_tables := st.tblSet.length
    total_views := st.viewSet.length
    tables := sortLe lexLe st.tblSet
    views := sortLe lexLe st.viewSet
    files := st.analyzed }

/-- The sentinel text returned by `FileUtils.read_file_content` when the
file cannot be read at all (lines 97-98 of src/utils/file_utils.py):
`f"ERROR: Could not read file - {str(e)}"` — returned, not raised. -/
def readFailureContent (msg : String) : Str := str "ERROR: Could not read file - " ++ str msg

/-- An oracle for a catalog with no connection patterns (never consulted). -/
def trivOracle : ReOracle := fun _ _ => some []

/-! ### Derived notions used by the claims -/

/-- The analyzed-file list produced by the scan loop. -/
def analyzedOf (oracle : ReOracle) (cat : Config) (files : List (FileInfo × Str)) :
    List Analyzed :=
  files.map (fun fc => (fc.1, analyze_file oracle cat fc.1 fc.2))

/-- The internal `import_summary` mapping after the scan loop. -/
def impSummaryOf (oracle : ReOracle) (cat : Config) (files : List (FileInfo × Str)) :
    List (Str × Nat) :=
  (scanFold oracle cat files).impSum

/-- The pair of counters of a `connector_summary` entry the claims compare. -/
def projCE (e : ConnEntry) : Nat × Nat := (e.total_files, e.total_instances)

/-- Number of bindings of connector `c` in one file's detection result
(0 or 1 for results of `identify_connectors`). -/
def occCnt (c : String) (l : List (String × ConnectorHit)) : Nat :=
  l.countP (fun nh => nh.1 == c)

/-- Total `count` of the bindings of connector `c` in one file's result. -/
def occInst (c : String) (l : List (String × ConnectorHit)) : Nat :=
  (l.map (fun nh => if nh.1 = c then nh.2.count else 0)).sum

/-- Per-connector file total over a list of analyzed files. -/
def connFilesTot (c : String) (fas : List Analyzed) : Nat :=
  (fas.map (fun fa => occCnt c fa.2.connectors)).sum

/-- Per-connector instance total over a list of analyzed files. -/
def connInstTot (c : String) (fas : List Analyzed) : Nat :=
  (fas.map (fun fa => occInst c fa.2.connectors)).sum

/-- Total number of occurrences of one import line over analyzed files. -/
def impCntTot (imp : Str) (fas : List Analyzed) : Nat :=
  (fas.map (fun fa => fa.2.imports.count imp)).sum

/-- Combine an optional summary-entry projection with additional totals. -/
def addTot : Option (Nat × Nat) → Nat × Nat → Option (Nat × Nat)
  | some ab, xy => some (ab.1 + xy.1, ab.2 + xy.2)
  | none, xy => if xy.1 = 0 then none else some xy

/-- Combine an optional frequency count with additional occurrences. -/
def addCnt : Option Nat → Nat → Option Nat
  | some k, n => some (k + n)
  | none, n => if n = 0 then none else some n

/-- Is this instance a keyword instance for keyword `k`? -/
def isKwFor (k : Str) : MatchInstance → Bool
  | MatchInstance.keyword p _ => p == k
  | MatchInstance.connection _ _ _ _ => false

/-- Spec-side description of `top_imports` before truncation: a permutation
of the frequency items that is sorted by count descending and, within each
tie class (fixed count `c`), lists the items in their original
first-encounter order. -/
def IsStableTopOrder (items l : List (Str × Nat)) : Prop :=
  l.Perm items ∧ l.Pairwise (fun a b => leCnt a b = true) ∧
  ∀ c, l.filter (fun p => p.2 == c) = items.filter (fun p => p.2 == c)

/-! ### Concrete instances used by counterexamples and witnesses -/

/-- The file of end-to-end scenario 4: a `.py` file whose read fails. -/
def permFailFile : FileInfo := { relative_path := "a.py", extension := ".py" }

/-- The scan of a one-file project whose only file is unreadable: the
reader hands the scan loop the sentinel text, not an exception. -/
def c1ScanResult : Summary :=
  scan trivOracle (load_config none) [(permFailFile, readFailureContent "x")]

/-- The SQL text of end-to-end scenario 2. -/
def sqlScenarioText : Str :=
  str "SELECT * FROM sales.orders o JOIN sales.customers c ON o.cid = c.id"

/-- A `.sql` file record for scenario 2. -/
def sqlScenarioFile : FileInfo := { relative_path := "q.sql", extension := ".sql" }

/-- A connector with two keywords, for the C3 counterexample. -/
def c3Spec : ConnectorSpec :=
  { ctype := "database", keywords := [str "aa", str "bb"], connectionPatterns := [] }

/-- A catalog with the two-keyword connector `db`. -/
def c3Cat : Config := { connectors := [("db", c3Spec)], fileTypes := [] }

/-- A one-keyword connector spec for witnesses. -/
def pgSpec : ConnectorSpec :=
  { ctype := "database", keywords := [str "psycopg2"], connectionPatterns := [] }

/-- A one-keyword connector catalog for witnesses. -/
def pgCat : Config := { connectors := [("postgresql", pgSpec)], fileTypes := [] }

/-- A catalog exercising all classifier branches, for the C6 witness. -/
def c6Cat : Config :=
  { connectors := []
    fileTypes :=
      [("databricks_notebook",
        { extensions := [], keywords := [str "# Databricks notebook source"] }),
       ("pyspark", { extensions := [], keywords := [str "SparkSession"] }),
       ("sql", { extensions := [".sql", ".ddl"], keywords := [] })] }

/-- Two files with overlapping imports, for the C2 and C5 witnesses. -/
def wFileA : FileInfo × Str :=
  ({ relative_path := "a.py", extension := ".py" }, str "import psycopg2\nimport a")

/-- Second witness file. -/
def wFileB : FileInfo × Str :=
  ({ relative_path := "b.py", extension := ".py" }, str "import a\nimport b")

/-! ## Basic lemmas -/

theorem upN_upN (n : Nat) : upN (upN n) = upN n := by
  unfold upN
  split_ifs <;> omega

theorem upN_loN (n : Nat) : upN (loN n) = upN n := by
  unfold upN loN
  split_ifs <;> omega

theorem toUpperStr_idem (s : Str) : toUpperStr (toUpperStr s) = toUpperStr s := by
  unfold toUpperStr
  rw [List.map_map]
  congr 1
  funext n
  exact upN_upN n

theorem toUpperStr_toLowerStr (s : Str) : toUpperStr (toLowerStr s) = toUpperStr s := by
  unfold toUpperStr toLowerStr
  rw [List.map_map]
  congr 1
  funext n
  exact upN_loN n

theorem foldl_pres {α β : Type} (P : α → Prop) (f : α → β → α) :
    ∀ (l : List β) (a : α), (∀ x b, b ∈ l → P x → P (f x b)) → P a → P (l.foldl f a)
  | [], _, _, ha => ha
  | b :: t, a, hf, ha =>
    foldl_pres P f t (f a b)
      (fun x b2 hb2 => hf x b2 (List.mem_cons_of_mem _ hb2))
      (hf a b (List.mem_cons_self _ _) ha)

theorem mem_addSet {l : List Str} {x y : Str} : y ∈ addSet l x ↔ y ∈ l ∨ y = x := by
  unfold addSet
  split_ifs with h
  · constructor
    · exact fun hy => Or.inl hy
    · rintro (hy | rfl)
      · exact hy
      · exact h
  · simp [List.mem_append]

theorem addSet_nodup {l : List Str} {x : Str} (h : l.Nodup) : (addSet l x).Nodup := by
  unfold addSet
  split_ifs with hx
  · exact h
  · rw [← List.concat_eq_append]
    exact h.concat hx

/-! ## C8: SQL extraction is case-insensitive and idempotent on its input -/

/-- C8: SQL object extraction only depends on the upper-cased input: any
two texts with the same upper-casing produce the same result, and
extraction from the upper-cased text equals extraction from the original
(so re-running on the same or case-normalized text is idempotent). -/
theorem c8_sql_extraction_case_insensitive (s t : Str) (ft : String) :
    (toUpperStr s = toUpperStr t → extract_sql_objects s ft = extract_sql_objects t ft) ∧
    extract_sql_objects (toUpperStr s) ft = extract_sql_objects s ft := by
  constructor
  · intro h
    unfold extract_sql_objects
    rw [h]
  · unfold extract_sql_objects
    rw [toUpperStr_idem]

/-- Witness for C8 at a concrete mixed-case/upper-case input pair. -/
theorem c8_sql_extraction_case_insensitive_witness :
    extract_sql_objects (str "from Tbl") "sql" = extract_sql_objects (str "FROM TBL") "sql" :=
  (c8_sql_extraction_case_insensitive (str "from Tbl") (str "FROM TBL") "sql").1 (by decide)

/-! ## C9: a failed catalog load yields an empty catalog, not an abort -/

/-- C9: with the empty catalog produced by a failed load, every file is
still classified (`python` for the scripting extension, else the sentinel
`unknown`) and connector detection returns the empty mapping on every
text. -/
theorem c9_empty_catalog_scan_proceeds (oracle : ReOracle) (fi : FileInfo) (content : Str) :
    identify_connectors oracle (load_config none) content = [] ∧
    identify_file_type (load_config none) fi content =
      (if fi.extension = ".py" then "python" else "unknown") := by
  constructor
  · rfl
  · simp [identify_file_type, load_config, getFT, alookup]

/-! ## C10: the schemas key exists and is never populated -/

theorem addObj_schemas (o : SqlObjects) (key : String) (n : Str) (h : key ≠ "schemas") :
    (addObj o key n).schemas = o.schemas := by
  unfold addObj
  by_cases h1 : key = "tables"
  · simp [h1]
  · by_cases h2 : key = "views"
    · simp [h1, h2]
    · by_cases h3 : key = "schemas"
      · exact absurd h3 h
      · simp [h1, h2, h3]

theorem procName_schemas (o : SqlObjects) (key : String) (cap : Str) (h : key ≠ "schemas") :
    (procName o key cap).schemas = o.schemas := by
  unfold procName
  split_ifs with h1 h2
  · rfl
  · rfl
  · exact addObj_schemas _ _ _ h

/-- C10: for every input, the extraction result carries a `schemas` entry
alongside `tables` and `views`, and no pattern ever adds a name to it:
the list is always empty. -/
theorem c10_schemas_never_populated (content : Str) (ft : String) :
    (extract_sql_objects content ft).schemas = [] := by
  unfold extract_sql_objects extractFromUpper
  refine foldl_pres (fun o : SqlObjects => o.schemas = []) _ sqlPatterns _ ?_ rfl
  intro x kp hkp hx
  have hkey : kp.1 = "tables" ∨ kp.1 = "views" := by
    simp only [sqlPatterns, List.mem_cons, List.not_mem_nil, or_false] at hkp
    rcases hkp with h | h <;> rw [h] <;> simp
  refine foldl_pres (fun o : SqlObjects => o.schemas = []) _ kp.2 _ ?_ hx
  intro y pat _ hy
  refine foldl_pres (fun o : SqlObjects => o.schemas = []) _ _ _ ?_ hy
  intro z cap _ hz
  rw [procName_schemas]
  · exact hz
  · rcases hkey with h | h <;> rw [h] <;> decide

/-! ## C7: extracted names never hit the stoplist -/

theorem lower_notStop (m : Str) (h : toUpperStr m ∉ stopNames) :
    toLowerStr m ≠ str "select" ∧ toLowerStr m ≠ str "as" ∧ toLowerStr m ≠ str "on" := by
  refine ⟨fun he => h ?_, fun he => h ?_, fun he => h ?_⟩ <;>
    rw [← toUpperStr_toLowerStr m, he] <;> decide

theorem addObj_tables_mem {o : SqlObjects} {key : String} {n y : Str}
    (hy : y ∈ (addObj o key n).tables) : y ∈ o.tables ∨ y = n := by
  unfold addObj at hy
  split_ifs at hy
  · exact mem_addSet.1 hy
  · exact Or.inl hy
  · exact Or.inl hy
  · exact Or.inl hy

theorem addObj_views_mem {o : SqlObjects} {key : String} {n y : Str}
    (hy : y ∈ (addObj o key n).views) : y ∈ o.views ∨ y = n := by
  unfold addObj at hy
  split_ifs at hy
  · exact Or.inl hy
  · exact mem_addSet.1 hy
  · exact Or.inl hy
  · exact Or.inl hy

/-- The invariant carried through the extraction folds for C7. -/
def NoStopInv (o : SqlObjects) : Prop :=
  (∀ n ∈ o.tables, n ≠ str "select" ∧ n ≠ str "as" ∧ n ≠ str "on") ∧
  (∀ n ∈ o.views, n ≠ str "select" ∧ n ≠ str "as" ∧ n ≠ str "on")

theorem procName_noStop (o : SqlObjects) (key : String) (cap : Str) (ho : NoStopInv o) :
    NoStopInv (procName o key cap) := by
  unfold procName
  split_ifs with h1 h2
  · exact ho
  · exact ho
  · constructor
    · intro n hn
      rcases addObj_tables_mem hn with hmem | rfl
      · exact ho.1 n hmem
      · exact lower_notStop _ h2
    · intro n hn
      rcases addObj_views_mem hn with hmem | rfl
      · exact ho.2 n hmem
      · exact lower_notStop _ h2

theorem extractFromUpper_noStop (up : Str) : NoStopInv (extractFromUpper up) := by
  unfold extractFromUpper
  refine foldl_pres NoStopInv _ sqlPatterns _ ?_ ?_
  · intro x kp _ hx
    refine foldl_pres NoStopInv _ kp.2 _ ?_ hx
    intro y pat _ hy
    refine foldl_pres NoStopInv _ _ _ ?_ hy
    intro z cap _ hz
    exact procName_noStop _ _ _ hz
  · exact ⟨fun n hn => absurd hn (List.not_mem_nil n), fun n hn => absurd hn (List.not_mem_nil n)⟩

/-- C7: no name in the tables or views list of an extraction result equals
`select`, `as` or `on` — the stoplist filter guarantee. -/
theorem c7_stoplist_guarantee (content : Str) (ft : String) (n : Str)
    (h : n ∈ (extract_sql_objects content ft).tables ∨
         n ∈ (extract_sql_objects content ft).views) :
    n ≠ str "select" ∧ n ≠ str "as" ∧ n ≠ str "on" := by
  have hinv := extractFromUpper_noStop (toUpperStr content)
  rcases h with h | h
  · exact hinv.1 n h
  · exact hinv.2 n h

/-- Witness for C7 at a concrete extracted name. -/
theorem c7_stoplist_guarantee_witness :
    str "orders" ≠ str "select" ∧ str "orders" ≠ str "as" ∧ str "orders" ≠ str "on" :=
  c7_stoplist_guarantee sqlScenarioText "sql" (str "orders") (Or.inl (by decide))

/-! ## C4: the scenario-2 JOIN example -/

/-- C4 counterexample: on the scenario text the per-file tables list is
not the sorted `["customers", "orders"]` — the code converts a Python set
to a list without sorting (the model realizes the unspecified set order as
first-insertion order, which is match order `["orders", "customers"]`);
only the project-level summary sorts. -/
theorem c4_counterexample :
    (extract_sql_objects sqlScenarioText "sql").tables ≠
      [str "customers", str "orders"] := by decide

/-- C4 amended: the per-file tables list contains exactly `customers` and
`orders` (last segment of each qualified name, lower-cased) in the model's
insertion order `["orders", "customers"]`, contains neither `on` nor
`select`, and the sorted list `["customers", "orders"]` is the one in the
project-level `sql_objects_summary`. -/
theorem c4_sql_example_amended :
    (extract_sql_objects sqlScenarioText "sql").tables = [str "orders", str "customers"] ∧
    (extract_sql_objects sqlScenarioText "sql").tables.Perm
      [str "customers", str "orders"] ∧
    str "on" ∉ (extract_sql_objects sqlScenarioText "sql").tables ∧
    str "select" ∉ (extract_sql_objects sqlScenarioText "sql").tables ∧
    (scan trivOracle (load_config none) [(sqlScenarioFile, sqlScenarioText)]).tables =
      [str "customers", str "orders"] := by decide

/-! ## C1: unreadable files -/

/-- C1: a file whose read fails (e.g. a permissions error) does not
produce an `error` record: `FileUtils.read_file_content` returns the
sentinel text instead of raising, so the scan's `except` branch never
runs; the sentinel is analyzed as ordinary content — the file is counted
in `total_files`, classified from its extension (`python` here, not
`error`), and its sentinel line contributes 1 to `total_loc` instead of
zero. -/
theorem c1_read_failure_analyzed_as_content :
    c1ScanResult.total_files = 1 ∧
    c1ScanResult.files.map (fun fa => fa.2.file_type) = ["python"] ∧
    (∀ fa ∈ c1ScanResult.files, fa.2.file_type ≠ "error") ∧
    c1ScanResult.total_loc = 1 := by decide

/-! ## C6: classifier priority order -/

/-- C6: classification follows the strict priority order: (1) any
notebook-marker keyword in the text wins regardless of extension; (2) else
for extension `.py` the result is `pyspark` iff a pyspark keyword occurs,
else `python`; (3) else the first catalog file type (in catalog order)
whose extension set contains the file's extension; (4) else `unknown`. -/
theorem c6_file_type_priority (cat : Config) (fi : FileInfo) (content : Str) :
    ((getFT cat "databricks_notebook").keywords.any (fun kw => isSubstr kw content) = true →
      identify_file_type cat fi content = "databricks_notebook") ∧
    ((getFT cat "databricks_notebook").keywords.any (fun kw => isSubstr kw content) = false →
      fi.extension = ".py" →
      identify_file_type cat fi content =
        (if (getFT cat "pyspark").keywords.any (fun kw => isSubstr kw content) = true
         then "pyspark" else "python")) ∧
    ((getFT cat "databricks_notebook").keywords.any (fun kw => isSubstr kw content) = false →
      fi.extension ≠ ".py" →
      ∀ name spec,
        cat.fileTypes.find? (fun ft => ft.2.extensions.contains fi.extension)
          = some (name, spec) →
        identify_file_type cat fi content = name) ∧
    ((getFT cat "databricks_notebook").keywords.any (fun kw => isSubstr kw content) = false →
      fi.extension ≠ ".py" →
      cat.fileTypes.find? (fun ft => ft.2.extensions.contains fi.extension) = none →
      identify_file_type cat fi content = "unknown") := by
  have hmatch : ((getFT cat "databricks_notebook").keywords.any
        (fun kw => isSubstr kw content) = false) → fi.extension ≠ ".py" →
      identify_file_type cat fi content =
        (match cat.fileTypes.find? (fun ft => ft.2.extensions.contains fi.extension) with
         | some ft => ft.1
         | none => "unknown") := by
    intro h hpy
    unfold identify_file_type
    rw [if_neg (by simp [h]), if_neg hpy]
  refine ⟨?_, ?_, ?_, ?_⟩
  · intro h
    simp [identify_file_type, h]
  · intro h hpy
    simp [identify_file_type, h, hpy]
  · intro h hpy name spec hfind
    rw [hmatch h hpy, hfind]
  · intro h hpy hfind
    rw [hmatch h hpy, hfind]

/-- Witness for C6: one concrete classification per priority rule. -/
theorem c6_file_type_priority_witness :
    identify_file_type c6Cat { relative_path := "n.py", extension := ".py" }
      (str "# Databricks notebook source") = "databricks_notebook" ∧
    identify_file_type c6Cat { relative_path := "a.py", extension := ".py" }
      (str "s = SparkSession.builder") = "pyspark" ∧
    identify_file_type c6Cat { relative_path := "b.py", extension := ".py" }
      (str "print(1)") = "python" ∧
    identify_file_type c6Cat { relative_path := "d.ddl", extension := ".ddl" }
      (str "CREATE TABLE t (x INT)") = "sql" ∧
    identify_file_type c6Cat { relative_path := "r.r", extension := ".r" }
      (str "x <- 1") = "unknown" := by
  refine ⟨?_, ?_, ?_, ?_, ?_⟩
  · exact (c6_file_type_priority c6Cat _ _).1 (by decide)
  · exact ((c6_file_type_priority c6Cat _ _).2.1 (by decide) rfl).trans (by decide)
  · exact ((c6_file_type_priority c6Cat _ _).2.1 (by decide) rfl).trans (by decide)
  · exact (c6_file_type_priority c6Cat _ _).2.2.1 (by decide) (by decide) "sql"
      { extensions := [".sql", ".ddl"], keywords := [] } (by decide)
  · exact (c6_file_type_priority c6Cat _ _).2.2.2 (by decide) (by decide) (by decide)

/-! ## Association-list lemmas -/

theorem alookup_eq_none {α β : Type} [DecidableEq α] :
    ∀ (l : List (α × β)) (c : α), alookup l c = none → ∀ e ∈ l, e.1 ≠ c
  | [], _, _, e, he => absurd he (List.not_mem_nil e)
  | kv :: t, c, h, e, he => by
    unfold alookup at h
    by_cases hk : kv.1 = c
    · simp [hk] at h
    · rcases List.mem_cons.1 he with rfl | he2
      · exact hk
      · exact alookup_eq_none t c (by simpa [hk] using h) e he2

theorem alookup_append {α β : Type} [DecidableEq α] :
    ∀ (l1 l2 : List (α × β)) (c : α),
      alookup (l1 ++ l2) c =
        (match alookup l1 c with
         | some v => some v
         | none => alookup l2 c)
  | [], l2, c => rfl
  | kv :: t, l2, c => by
    by_cases hk : kv.1 = c <;> simp [alookup, hk, alookup_append t l2 c]

theorem alookup_assocSet_self {α β : Type} [DecidableEq α] :
    ∀ (l : List (α × β)) (k : α) (v : β), alookup (assocSet l k v) k = some v
  | [], k, v => by simp [assocSet, alookup]
  | kv :: t, k, v => by
    by_cases hk : kv.1 = k <;>
      simp [assocSet, alookup, hk, alookup_assocSet_self t k v]

theorem alookup_assocSet_ne {α β : Type} [DecidableEq α] {c k : α} (hck : c ≠ k) :
    ∀ (l : List (α × β)) (v : β), alookup (assocSet l k v) c = alookup l c
  | [], v => by
    have hkc : ¬(k = c) := fun h => hck h.symm
    simp [assocSet, alookup, hkc]
  | kv :: t, v => by
    have hkc : ¬(k = c) := fun h => hck h.symm
    by_cases hk : kv.1 = k
    · simp [assocSet, alookup, hk, hkc]
    · simp [assocSet, alookup, hk, alookup_assocSet_ne hck t v]

theorem mem_assocSet {α β : Type} [DecidableEq α] :
    ∀ {l : List (α × β)} {k : α} {v : β} {e : α × β},
      e ∈ assocSet l k v → e ∈ l ∨ e = (k, v)
  | [], k, v, e, he => by
    simp [assocSet] at he
    exact Or.inr he
  | kv :: t, k, v, e, he => by
    unfold assocSet at he
    split_ifs at he with hk
    · rcases List.mem_cons.1 he with rfl | he2
      · exact Or.inr rfl
      · exact Or.inl (List.mem_cons_of_mem _ he2)
    · rcases List.mem_cons.1 he with rfl | he2
      · exact Or.inl (List.mem_cons_self _ _)
      · rcases mem_assocSet he2 with h | h
        · exact Or.inl (List.mem_cons_of_mem _ h)
        · exact Or.inr h

theorem alookup_assocModify_self {α β : Type} [DecidableEq α] :
    ∀ (l : List (α × β)) (k : α) (f : β → β) (v : β),
      alookup l k = some v → alookup (assocModify l k f) k = some (f v)
  | [], k, f, v, h => by simp [alookup] at h
  | kv :: t, k, f, v, h => by
    by_cases hk : kv.1 = k
    · simp only [alookup, hk, if_true] at h
      cases h
      simp [assocModify, alookup, hk]
    · simp only [alookup, hk, if_false] at h
      simp [assocModify, alookup, hk, alookup_assocModify_self t k f v h]

theorem alookup_assocModify_ne {α β : Type} [DecidableEq α] {c k : α} (hck : c ≠ k) :
    ∀ (l : List (α × β)) (f : β → β), alookup (assocModify l k f) c = alookup l c
  | [], f => rfl
  | kv :: t, f => by
    have hkc : ¬(k = c) := fun h => hck h.symm
    by_cases hk : kv.1 = k
    · simp [assocModify, alookup, hk, hkc]
    · simp [assocModify, alookup, hk, alookup_assocModify_ne hck t f]

/-! ## C3: keyword detection -/

theorem detFold_alookup_nomem (oracle : ReOracle) (content : Str) (c : String) :
    ∀ (entries : List (String × ConnectorSpec)) (acc : List (String × ConnectorHit)),
      (∀ e ∈ entries, e.1 ≠ c) →
      alookup (entries.foldl (detStep oracle content) acc) c = alookup acc c
  | [], acc, _ => rfl
  | nc :: rest, acc, hne => by
    have hstep : alookup (detStep oracle content acc nc) c = alookup acc c := by
      unfold detStep
      split_ifs
      · rfl
      · exact alookup_assocSet_ne
          (fun h => hne nc (List.mem_cons_self _ _) h.symm) acc _
    rw [List.foldl_cons,
      detFold_alookup_nomem oracle content c rest _
        (fun e he => hne e (List.mem_cons_of_mem _ he)),
      hstep]

theorem detFold_alookup (oracle : ReOracle) (content : Str) (c : String)
    (spec : ConnectorSpec) :
    ∀ (entries : List (String × ConnectorSpec)) (acc : List (String × ConnectorHit)),
      (entries.map Prod.fst).Nodup → alookup acc c = none →
      alookup entries c = some spec →
      alookup (entries.foldl (detStep oracle content) acc) c =
        (if (instancesFor oracle spec content).isEmpty then none
         else some { count := (instancesFor oracle spec content).length,
                     ctype := spec.ctype,
                     instances := instancesFor oracle spec content })
  | [], acc, _, _, hc => by simp [alookup] at hc
  | nc :: rest, acc, hnd, hacc, hc => by
    rw [List.map_cons, List.nodup_cons] at hnd
    by_cases hk : nc.1 = c
    · have hspec : nc.2 = spec := by
        simpa [alookup, hk] using hc
      subst hspec
      subst hk
      have hrest : ∀ e ∈ rest, e.1 ≠ nc.1 := by
        intro e he heq
        exact hnd.1 (heq ▸ List.mem_map_of_mem Prod.fst he)
      rw [List.foldl_cons, detFold_alookup_nomem oracle content nc.1 rest _ hrest]
      unfold detStep
      split_ifs with hins
      · exact hacc
      · exact alookup_assocSet_self acc _ _
    · have hc2 : alookup rest c = some spec := by
        simpa [alookup, hk] using hc
      have hacc2 : alookup (detStep oracle content acc nc) c = none := by
        rw [show alookup (detStep oracle content acc nc) c = alookup acc c from ?_, hacc]
        unfold detStep
        split_ifs
        · rfl
        · exact alookup_assocSet_ne (fun h => hk h.symm) acc _
      rw [List.foldl_cons]
      exact detFold_alookup oracle content c spec rest _ hnd.2 hacc2 hc2

theorem countP_kwsFor (spec : ConnectorSpec) (content : Str) (k : Str) :
    (kwsFor spec content).countP (isKwFor k) =
      spec.keywords.countP (fun kw => kw == k && isSubstr kw content) := by
  unfold kwsFor
  induction spec.keywords with
  | nil => rfl
  | cons kw t ih =>
    by_cases hs : isSubstr kw content
    · simp [List.filterMap_cons, hs, List.countP_cons, ih, isKwFor]
    · simp [List.filterMap_cons, hs, List.countP_cons, ih]

theorem countP_connsFor_zero (oracle : ReOracle) (spec : ConnectorSpec) (content : Str)
    (k : Str) : (connsFor oracle spec content).countP (isKwFor k) = 0 := by
  unfold connsFor
  refine foldl_pres (fun acc : List MatchInstance => acc.countP (isKwFor k) = 0) _
    spec.connectionPatterns _ ?_ rfl
  intro acc p _ hacc
  cases ho : oracle p content with
  | none => exact hacc
  | some ms =>
    dsimp only
    rw [List.countP_append, hacc, List.countP_map]
    simp [Function.comp, isKwFor]

theorem countP_keyword_eq_one (content : Str) (k : Str) :
    ∀ (l : List Str), l.Nodup → k ∈ l → isSubstr k content = true →
      l.countP (fun kw => kw == k && isSubstr kw content) = 1 := by
  intro l hnd hk hs
  induction l with
  | nil => exact absurd hk (List.not_mem_nil k)
  | cons a t ih =>
    rw [List.nodup_cons] at hnd
    rcases List.mem_cons.1 hk with rfl | hkt
    · have hzero : t.countP (fun kw => kw == k && isSubstr kw content) = 0 := by
        rw [List.countP_eq_zero]
        intro kw hkw
        have hkwk : kw ≠ k := fun h => hnd.1 (h ▸ hkw)
        simp [hkwk]
      simp [List.countP_cons, hzero, hs]
    · have ha : (a == k && isSubstr a content) = false := by
        have : a ≠ k := fun h => hnd.1 (h ▸ hkt)
        simp [this]
      simp [List.countP_cons, ha, ih hnd.2 hkt]

/-- C3 counterexample: the claim quantifies over every catalog, but a
connector can have several keywords — here `db` has keywords `aa` and
`bb`; the text `bb` contains keyword `aa` of `db` zero times, yet the
detection result does have an entry for `db`. -/
theorem c3_counterexample :
    alookup c3Cat.connectors "db" = some c3Spec ∧
    str "aa" ∈ c3Spec.keywords ∧
    isSubstr (str "aa") (str "bb") = false ∧
    alookup (identify_connectors trivOracle c3Cat (str "bb")) "db" ≠ none := by decide

/-- C3 amended: over a catalog with distinct connector names, (a) a
connector none of whose keywords occurs in the text and none of whose
connection patterns produces a match has no entry in the result; (b) if
the text contains keyword `k` of connector `c` (the keyword list having no
duplicate listings) then the entry for `c` has exactly one keyword-type
instance for `k`, regardless of how many times `k` occurs in the text;
(c) no entry of the result ever has an empty instance list. -/
theorem c3_keyword_detection (oracle : ReOracle) (cat : Config) (content : Str)
    (hnd : (cat.connectors.map Prod.fst).Nodup) :
    (∀ c spec, alookup cat.connectors c = some spec →
      (∀ kw ∈ spec.keywords, isSubstr kw content = false) →
      (∀ p ∈ spec.connectionPatterns, ∀ ms, oracle p content = some ms → ms = []) →
      alookup (identify_connectors oracle cat content) c = none) ∧
    (∀ c spec k, alookup cat.connectors c = some spec → spec.keywords.Nodup →
      k ∈ spec.keywords → isSubstr k content = true →
      ∃ hit, alookup (identify_connectors oracle cat content) c = some hit ∧
        hit.instances.countP (isKwFor k) = 1) ∧
    (∀ e ∈ identify_connectors oracle cat content, e.2.instances ≠ []) := by
  refine ⟨?_, ?_, ?_⟩
  · intro c spec hc hkw hpat
    have hkws : kwsFor spec content = [] := by
      unfold kwsFor
      rw [List.filterMap_eq_nil_iff]
      intro kw hkwm
      simp [hkw kw hkwm]
    have hconns : connsFor oracle spec content = [] := by
      unfold connsFor
      refine foldl_pres (fun acc : List MatchInstance => acc = []) _
        spec.connectionPatterns _ ?_ rfl
      intro acc p hp hacc
      cases ho : oracle p content with
      | none => exact hacc
      | some ms =>
        dsimp only
        rw [hacc, hpat p hp ms ho]
        rfl
    have hins : (instancesFor oracle spec content).isEmpty := by
      unfold instancesFor
      rw [hkws, hconns]
      rfl
    rw [identify_connectors,
      detFold_alookup oracle content c spec cat.connectors [] hnd rfl hc]
    simp [hins]
  · intro c spec k hc hknd hkm hks
    have hcount : (instancesFor oracle spec content).countP (isKwFor k) = 1 := by
      unfold instancesFor
      rw [List.countP_append, countP_kwsFor, countP_connsFor_zero,
        countP_keyword_eq_one content k spec.keywords hknd hkm hks]
    have hne : (instancesFor oracle spec content).isEmpty = false := by
      cases hi : instancesFor oracle spec content with
      | nil => rw [hi] at hcount; simp at hcount
      | cons a t => rfl
    refine ⟨{ count := (instancesFor oracle spec content).length, ctype := spec.ctype,
              instances := instancesFor oracle spec content }, ?_, ?_⟩
    · rw [identify_connectors,
        detFold_alookup oracle content c spec cat.connectors [] hnd rfl hc]
      simp [hne]
    · exact hcount
  · intro e he
    rw [identify_connectors] at he
    revert e he
    refine foldl_pres
      (fun detected : List (String × ConnectorHit) =>
        ∀ e ∈ detected, e.2.instances ≠ []) _ cat.connectors _ ?_ ?_
    · intro detected nc _ hdet e he
      unfold detStep at he
      split_ifs at he with hins
      · exact hdet e he
      · rcases mem_assocSet he with h | rfl
        · exact hdet e h
        · simpa [List.isEmpty_iff] using hins
    · intro e he
      exact absurd he (List.not_mem_nil e)

/-- Witness for C3 at a concrete catalog and two concrete texts. -/
theorem c3_keyword_detection_witness :
    alookup (identify_connectors trivOracle pgCat (str "nothing here")) "postgresql"
      = none ∧
    alookup (identify_connectors trivOracle pgCat (str "a = psycopg2 and psycopg2"))
      "postgresql" ≠ none := by
  constructor
  · exact (c3_keyword_detection trivOracle pgCat (str "nothing here") (by decide)).1
      "postgresql" pgSpec (by decide) (by decide)
      (fun p hp => absurd hp (List.not_mem_nil p))
  · rcases (c3_keyword_detection trivOracle pgCat (str "a = psycopg2 and psycopg2")
        (by decide)).2.1 "postgresql" pgSpec (str "psycopg2") (by decide) (by decide)
        (by decide) (by decide) with ⟨hit, hl, -⟩
    rw [hl]
    simp

/-! ## Sorting lemmas -/

theorem insertLe_perm {α : Type} (le : α → α → Bool) (x : α) :
    ∀ l : List α, (insertLe le x l).Perm (x :: l)
  | [] => List.Perm.refl _
  | y :: ys => by
    unfold insertLe
    split_ifs
    · exact List.Perm.refl _
    · exact ((insertLe_perm le x ys).cons y).trans (List.Perm.swap x y ys)

theorem sortLe_perm {α : Type} (le : α → α → Bool) : ∀ l : List α, (sortLe le l).Perm l
  | [] => List.Perm.refl _
  | a :: t => by
    unfold sortLe
    rw [List.foldr_cons]
    exact (insertLe_perm le a _).trans ((sortLe_perm le t).cons a)

theorem insertLe_sorted {α : Type} (le : α → α → Bool)
    (htot : ∀ a b, le a b = true ∨ le b a = true)
    (htrans : ∀ a b c, le a b = true → le b c = true → le a c = true) (x : α) :
    ∀ l : List α, l.Pairwise (fun a b => le a b = true) →
      (insertLe le x l).Pairwise (fun a b => le a b = true)
  | [], _ => by simp [insertLe]
  | y :: ys, hl => by
    unfold insertLe
    rw [List.pairwise_cons] at hl
    split_ifs with hxy
    · rw [List.pairwise_cons]
      refine ⟨?_, List.pairwise_cons.2 hl⟩
      intro z hz
      rcases List.mem_cons.1 hz with rfl | hzys
      · exact hxy
      · exact htrans x y z hxy (hl.1 z hzys)
    · rw [List.pairwise_cons]
      refine ⟨?_, insertLe_sorted le htot htrans x ys hl.2⟩
      intro z hz
      rcases List.mem_cons.1 ((insertLe_perm le x ys).mem_iff.1 hz) with rfl | hzys
      · rcases htot z y with h | h
        · exact absurd h hxy
        · exact h
      · exact hl.1 z hzys

theorem sortLe_sorted {α : Type} (le : α → α → Bool)
    (htot : ∀ a b, le a b = true ∨ le b a = true)
    (htrans : ∀ a b c, le a b = true → le b c = true → le a c = true) :
    ∀ l : List α, (sortLe le l).Pairwise (fun a b => le a b = true)
  | [] => List.Pairwise.nil
  | a :: t => by
    unfold sortLe
    rw [List.foldr_cons]
    exact insertLe_sorted le htot htrans a _ (sortLe_sorted le htot htrans t)

theorem leCnt_tot (a b : Str × Nat) : leCnt a b = true ∨ leCnt b a = true := by
  simp only [leCnt, decide_eq_true_eq]
  omega

theorem leCnt_trans (a b c : Str × Nat) :
    leCnt a b = true → leCnt b c = true → leCnt a c = true := by
  simp only [leCnt, decide_eq_true_eq]
  omega

theorem filter_insertLe_cnt (x : Str × Nat) (c : Nat) :
    ∀ l : List (Str × Nat),
      (insertLe leCnt x l).filter (fun p => p.2 == c) =
        (if x.2 = c then x :: l.filter (fun p => p.2 == c)
         else l.filter (fun p => p.2 == c))
  | [] => by
    by_cases hx : x.2 = c <;> simp [insertLe, List.filter_cons, hx]
  | y :: ys => by
    by_cases hle : leCnt x y = true
    · rw [show insertLe leCnt x (y :: ys) = x :: y :: ys from by simp [insertLe, hle]]
      by_cases hx : x.2 = c <;> by_cases hy : y.2 = c <;>
        simp [List.filter_cons, hx, hy]
    · rw [show insertLe leCnt x (y :: ys) = y :: insertLe leCnt x ys from by
        simp [insertLe, hle]]
      have hlt : x.2 < y.2 := by
        simp only [leCnt, decide_eq_true_eq] at hle
        omega
      have ih := filter_insertLe_cnt x c ys
      by_cases hx : x.2 = c <;> by_cases hy : y.2 = c
      · exfalso
        omega
      · simp [List.filter_cons, hx, hy, ih]
      · simp [List.filter_cons, hx, hy, ih]
      · simp [List.filter_cons, hx, hy, ih]

theorem filter_sortLe_cnt (c : Nat) :
    ∀ l : List (Str × Nat),
      (sortLe leCnt l).filter (fun p => p.2 == c) = l.filter (fun p => p.2 == c)
  | [] => rfl
  | a :: t => by
    have ih := filter_sortLe_cnt c t
    unfold sortLe at ih ⊢
    rw [List.foldr_cons, filter_insertLe_cnt]
    by_cases ha : a.2 = c <;> simp [List.filter_cons, ha, ih]

theorem stableDescUnique :
    ∀ (l1 l2 : List (Str × Nat)), l1.Perm l2 →
      l1.Pairwise (fun a b => leCnt a b = true) →
      l2.Pairwise (fun a b => leCnt a b = true) →
      (∀ c, l1.filter (fun p => p.2 == c) = l2.filter (fun p => p.2 == c)) →
      l1 = l2
  | [], l2, hp, _, _, _ => (List.Perm.eq_nil hp.symm).symm
  | a :: t1, l2, hp, hs1, hs2, hf => by
    cases l2 with
    | nil => exact absurd (List.Perm.eq_nil hp) (by simp)
    | cons b t2 =>
      have hab2 : a.2 = b.2 := by
        have hbmem : b ∈ a :: t1 := hp.mem_iff.2 (List.mem_cons_self b t2)
        have hamem : a ∈ b :: t2 := hp.mem_iff.1 (List.mem_cons_self a t1)
        rw [List.pairwise_cons] at hs1 hs2
        rcases List.mem_cons.1 hbmem with rfl | hb
        · rfl
        · have h1 := hs1.1 b hb
          rcases List.mem_cons.1 hamem with rfl | ha2
          · rfl
          · have h2 := hs2.1 a ha2
            simp only [leCnt, decide_eq_true_eq] at h1 h2
            omega
      have hfc := hf a.2
      rw [List.filter_cons, List.filter_cons, if_pos (by simp), if_pos (by simp [hab2])]
        at hfc
      obtain ⟨rfl, hft⟩ := List.cons.injEq .. ▸ hfc
      refine congrArg (List.cons a) ?_
      refine stableDescUnique t1 t2 hp.cons_inv (List.pairwise_cons.1 hs1).2
        (List.pairwise_cons.1 hs2).2 ?_
      intro c
      have h := hf c
      rw [List.filter_cons, List.filter_cons] at h
      by_cases hc : (a.2 == c) = true
      · rw [if_pos hc, if_pos hc] at h
        exact (List.cons.injEq .. ▸ h).2
      · rw [if_neg hc, if_neg hc] at h
        exact h

/-! ## C5: top imports are the stable descending sort, truncated to 20 -/

/-- C5: the project-level `top_imports` equals the import frequency pairs
sorted by count descending with ties kept in first-encounter order — i.e.
the unique stable descending reordering of the aggregation's items — and
truncated to the first 20. -/
theorem c5_top_imports_stable_sort (oracle : ReOracle) (cat : Config)
    (files : List (FileInfo × Str)) (l : List (Str × Nat))
    (h : IsStableTopOrder (impSummaryOf oracle cat files) l) :
    (scan oracle cat files).top_imports = l.take 20 := by
  have heq : sortLe leCnt (impSummaryOf oracle cat files) = l := by
    apply stableDescUnique
    · exact (sortLe_perm leCnt _).trans h.1.symm
    · exact sortLe_sorted leCnt leCnt_tot leCnt_trans _
    · exact h.2.1
    · intro c
      rw [filter_sortLe_cnt]
      exact (h.2.2 c).symm
  show (sortLe leCnt (scanFold oracle cat files).impSum).take 20 = l.take 20
  rw [show (scanFold oracle cat files).impSum = impSummaryOf oracle cat files from rfl,
    heq]

/-- Witness for C5: two files with a tied pair of imports; the stable
descending reordering of the aggregated items is accepted by the theorem
and the resulting `top_imports` is computed. -/
theorem c5_top_imports_stable_sort_witness :
    (scan trivOracle (load_config none) [wFileA, wFileB]).top_imports =
      [(str "import a", 2), (str "import psycopg2", 1), (str "import b", 1)] := by
  have h := c5_top_imports_stable_sort trivOracle (load_config none) [wFileA, wFileB]
    (sortLe leCnt (impSummaryOf trivOracle (load_config none) [wFileA, wFileB]))
    ⟨sortLe_perm _ _, sortLe_sorted leCnt leCnt_tot leCnt_trans _,
      fun c => filter_sortLe_cnt c _⟩
  rw [h]
  decide

/-! ## Scan-state projection lemmas -/

theorem scanFold_analyzed (oracle : ReOracle) (cat : Config) :
    ∀ (files : List (FileInfo × Str)) (st : ScanState),
      (files.foldl (scanStep oracle cat) st).analyzed =
        st.analyzed ++ analyzedOf oracle cat files
  | [], st => by simp [analyzedOf]
  | fc :: rest, st => by
    rw [List.foldl_cons, scanFold_analyzed oracle cat rest _]
    simp [scanStep, analyzedOf]

theorem scanFold_connSum (oracle : ReOracle) (cat : Config) :
    ∀ (files : List (FileInfo × Str)) (st : ScanState),
      (files.foldl (scanStep oracle cat) st).connSum =
        (analyzedOf oracle cat files).foldl connStep st.connSum
  | [], st => by simp [analyzedOf]
  | fc :: rest, st => by
    rw [List.foldl_cons, scanFold_connSum oracle cat rest _]
    simp [scanStep, analyzedOf]

theorem scanFold_impSum (oracle : ReOracle) (cat : Config) :
    ∀ (files : List (FileInfo × Str)) (st : ScanState),
      (files.foldl (scanStep oracle cat) st).impSum =
        (analyzedOf oracle cat files).foldl impStep st.impSum
  | [], st => by simp [analyzedOf]
  | fc :: rest, st => by
    rw [List.foldl_cons, scanFold_impSum oracle cat rest _]
    simp [scanStep, analyzedOf]

theorem scanFold_tblSet (oracle : ReOracle) (cat : Config) :
    ∀ (files : List (FileInfo × Str)) (st : ScanState),
      (files.foldl (scanStep oracle cat) st).tblSet =
        (analyzedOf oracle cat files).foldl
          (fun acc fa => setStep acc fa.2.sql_objects.tables) st.tblSet
  | [], st => by simp [analyzedOf]
  | fc :: rest, st => by
    rw [List.foldl_cons, scanFold_tblSet oracle cat rest _]
    simp [scanStep, analyzedOf]

theorem scanFold_viewSet (oracle : ReOracle) (cat : Config) :
    ∀ (files : List (FileInfo × Str)) (st : ScanState),
      (files.foldl (scanStep oracle cat) st).viewSet =
        (analyzedOf oracle cat files).foldl
          (fun acc fa => setStep acc fa.2.sql_objects.views) st.viewSet
  | [], st => by simp [analyzedOf]
  | fc :: rest, st => by
    rw [List.foldl_cons, scanFold_viewSet oracle cat rest _]
    simp [scanStep, analyzedOf]

/-! ## Characterization of the connector summary -/

theorem updConn_alookup_self (acc : List (String × ConnEntry)) (rel : String)
    (c : String) (h : ConnectorHit) :
    alookup (updConn acc rel (c, h)) c =
      some (bumpCE ((alookup acc c).getD (zeroCE h.ctype)) h.count rel) := by
  unfold updConn
  dsimp only
  cases hl : alookup acc c with
  | some e =>
    rw [if_pos (show (some e).isSome = true from rfl)]
    rw [alookup_assocModify_self acc c _ e hl]
    rfl
  | none =>
    rw [if_neg (show ¬((none : Option ConnEntry).isSome = true) from by simp)]
    have happ : alookup (acc ++ [(c, zeroCE h.ctype)]) c = some (zeroCE h.ctype) := by
      rw [alookup_append, hl]
      simp [alookup]
    rw [alookup_assocModify_self _ c _ _ happ]
    rfl

theorem updConn_alookup_ne {c n : String} (hcn : c ≠ n) (acc : List (String × ConnEntry))
    (rel : String) (h : ConnectorHit) :
    alookup (updConn acc rel (n, h)) c = alookup acc c := by
  unfold updConn
  dsimp only
  rw [alookup_assocModify_ne hcn]
  split_ifs
  · rfl
  · rw [alookup_append]
    cases hl : alookup acc c with
    | some e => rfl
    | none =>
      have hnc : ¬(n = c) := fun hh => hcn hh.symm
      simp [alookup, hnc]

theorem occCnt_zero_inst (c : String) :
    ∀ l : List (String × ConnectorHit), occCnt c l = 0 → occInst c l = 0
  | [], _ => rfl
  | nh :: t, h => by
    unfold occCnt at h
    rw [List.countP_cons] at h
    by_cases hn : nh.1 = c
    · simp [hn] at h
    · unfold occInst
      rw [List.map_cons, List.sum_cons, if_neg hn]
      have ht : occCnt c t = 0 := by
        unfold occCnt
        omega
      have := occCnt_zero_inst c t ht
      unfold occInst at this
      omega

theorem addTot_assoc (o : Option (Nat × Nat)) (x y : Nat × Nat) (hx : x.1 = 0 → x.2 = 0) :
    addTot (addTot o x) y = addTot o (x.1 + y.1, x.2 + y.2) := by
  cases o with
  | some ab =>
    simp only [addTot, Option.some.injEq, Prod.mk.injEq]
    omega
  | none =>
    by_cases h1 : x.1 = 0
    · have h2 := hx h1
      simp [addTot, h1, h2]
    · rw [show addTot none x = some x from by
        simp only [addTot]
        rw [if_neg h1]]
      rw [show addTot none (x.1 + y.1, x.2 + y.2) = some (x.1 + y.1, x.2 + y.2) from by
        simp only [addTot]
        rw [if_neg (by omega : ¬(x.1 + y.1 = 0))]]
      rfl

theorem connFold_alookup (c : String) (rel : String) :
    ∀ (l : List (String × ConnectorHit)) (acc : List (String × ConnEntry)),
      (alookup (l.foldl (fun a nh => updConn a rel nh) acc) c).map projCE =
        addTot ((alookup acc c).map projCE) (occCnt c l, occInst c l)
  | [], acc => by
    cases h : alookup acc c <;> simp [h, addTot, occCnt, occInst, projCE]
  | (n, h) :: t, acc => by
    rw [List.foldl_cons]
    by_cases hnc : n = c
    · subst hnc
      rw [connFold_alookup n rel t _, updConn_alookup_self]
      have hocc : occCnt n ((n, h) :: t) = occCnt n t + 1 := by
        simp [occCnt, List.countP_cons]
      have hinst : occInst n ((n, h) :: t) = h.count + occInst n t := by
        simp [occInst, List.map_cons, List.sum_cons]
      rw [hocc, hinst]
      cases hl : alookup acc n with
      | some e =>
        simp only [Option.map_some', Option.getD_some, addTot, projCE, bumpCE,
          Option.some.injEq, Prod.mk.injEq]
        omega
      | none =>
        rw [show Option.map projCE (none : Option ConnEntry) = none from rfl]
        rw [show ((none : Option ConnEntry).getD (zeroCE h.ctype)) = zeroCE h.ctype
          from rfl]
        simp only [Option.map_some', addTot, projCE, bumpCE, zeroCE]
        rw [if_neg (by omega)]
        simp only [Option.some.injEq, Prod.mk.injEq]
        omega
    · have hocc : occCnt c ((n, h) :: t) = occCnt c t := by
        simp [occCnt, List.countP_cons, hnc]
      have hinst : occInst c ((n, h) :: t) = occInst c t := by
        simp [occInst, List.map_cons, List.sum_cons, hnc]
      rw [connFold_alookup c rel t _,
        updConn_alookup_ne (fun hh => hnc hh.symm), hocc, hinst]

theorem connAgg_alookup (c : String) :
    ∀ (fas : List Analyzed) (acc : List (String × ConnEntry)),
      (alookup (fas.foldl connStep acc) c).map projCE =
        addTot ((alookup acc c).map projCE) (connFilesTot c fas, connInstTot c fas)
  | [], acc => by
    cases h : alookup acc c <;>
      simp [h, addTot, connFilesTot, connInstTot, projCE]
  | fa :: rest, acc => by
    rw [List.foldl_cons, connAgg_alookup c rest _,
      show alookup (connStep acc fa) c = alookup
        (fa.2.connectors.foldl (fun a nh => updConn a fa.1.relative_path nh) acc) c
        from rfl]
    have hstep := connFold_alookup c fa.1.relative_path fa.2.connectors acc
    rw [hstep, addTot_assoc _ _ _ (occCnt_zero_inst c fa.2.connectors)]
    have h1 : connFilesTot c (fa :: rest) =
        occCnt c fa.2.connectors + connFilesTot c rest := by
      simp [connFilesTot, List.map_cons, List.sum_cons]
    have h2 : connInstTot c (fa :: rest) =
        occInst c fa.2.connectors + connInstTot c rest := by
      simp [connInstTot, List.map_cons, List.sum_cons]
    rw [h1, h2]

/-! ## Characterization of the import summary -/

theorem impIncr_alookup_self (acc : List (Str × Nat)) (imp : Str) :
    alookup (impIncr acc imp) imp = some ((alookup acc imp).getD 0 + 1) := by
  unfold impIncr
  cases hl : alookup acc imp with
  | some k =>
    rw [if_pos (show (some k).isSome = true from rfl)]
    rw [alookup_assocModify_self acc imp _ k hl]
    rfl
  | none =>
    rw [if_neg (show ¬((none : Option Nat).isSome = true) from by simp)]
    rw [alookup_append, hl]
    simp [alookup]

theorem impIncr_alookup_ne {c imp : Str} (hci : c ≠ imp) (acc : List (Str × Nat)) :
    alookup (impIncr acc imp) c = alookup acc c := by
  unfold impIncr
  split_ifs
  · exact alookup_assocModify_ne hci acc _
  · rw [alookup_append]
    cases hl : alookup acc c with
    | some k => rfl
    | none =>
      have hic : ¬(imp = c) := fun hh => hci hh.symm
      simp [alookup, hic]

theorem addCnt_assoc (o : Option Nat) (x y : Nat) :
    addCnt (addCnt o x) y = addCnt o (x + y) := by
  cases o with
  | some k =>
    simp only [addCnt, Option.some.injEq]
    omega
  | none =>
    by_cases h1 : x = 0
    · simp [addCnt, h1]
    · rw [show addCnt none x = some x from by
        simp only [addCnt]
        rw [if_neg h1]]
      rw [show addCnt none (x + y) = some (x + y) from by
        simp only [addCnt]
        rw [if_neg (by omega : ¬(x + y = 0))]]
      rfl

theorem impFold_alookup (imp : Str) :
    ∀ (l : List Str) (acc : List (Str × Nat)),
      alookup (l.foldl impIncr acc) imp = addCnt (alookup acc imp) (l.count imp)
  | [], acc => by
    cases h : alookup acc imp <;> simp [h, addCnt, List.count_nil]
  | i :: t, acc => by
    rw [List.foldl_cons]
    by_cases hic : i = imp
    · subst hic
      rw [impFold_alookup i t _, impIncr_alookup_self]
      have hcnt : (i :: t).count i = t.count i + 1 := by
        simp [List.count_cons]
      rw [hcnt]
      cases hl : alookup acc i with
      | some k =>
        simp only [hl, Option.getD, addCnt, Option.some.injEq]
        omega
      | none =>
        simp only [hl, Option.getD, addCnt]
        rw [if_neg (by omega)]
        simp only [Option.some.injEq]
        omega
    · have hcnt : (i :: t).count imp = t.count imp := by
        simp [List.count_cons, hic]
      rw [impFold_alookup imp t _, impIncr_alookup_ne (fun hh => hic hh.symm), hcnt]

theorem impAgg_alookup (imp : Str) :
    ∀ (fas : List Analyzed) (acc : List (Str × Nat)),
      alookup (fas.foldl impStep acc) imp =
        addCnt (alookup acc imp) (impCntTot imp fas)
  | [], acc => by
    cases h : alookup acc imp <;> simp [h, addCnt, impCntTot]
  | fa :: rest, acc => by
    rw [List.foldl_cons, impAgg_alookup imp rest _,
      show impStep acc fa = fa.2.imports.foldl impIncr acc from rfl,
      impFold_alookup imp fa.2.imports acc, addCnt_assoc]
    have h1 : impCntTot imp (fa :: rest) =
        fa.2.imports.count imp + impCntTot imp rest := by
      simp [impCntTot, List.map_cons, List.sum_cons]
    rw [h1]

/-! ## Characterization of the SQL-object sets -/

theorem mem_setStep {x : Str} :
    ∀ (l acc : List Str), x ∈ setStep acc l ↔ x ∈ acc ∨ x ∈ l
  | [], acc => by simp [setStep]
  | y :: t, acc => by
    unfold setStep
    rw [List.foldl_cons]
    have ih := @mem_setStep x t (addSet acc y)
    unfold setStep at ih
    rw [ih, mem_addSet]
    simp [List.mem_cons]
    tauto

theorem setStep_nodup : ∀ (l acc : List Str), acc.Nodup → (setStep acc l).Nodup
  | [], acc, h => h
  | y :: t, acc, h => by
    unfold setStep
    rw [List.foldl_cons]
    have := setStep_nodup t (addSet acc y) (addSet_nodup h)
    unfold setStep at this
    exact this

theorem setAgg_mem (proj : Analyzed → List Str) (x : Str) :
    ∀ (fas : List Analyzed) (acc : List Str),
      x ∈ fas.foldl (fun a fa => setStep a (proj fa)) acc ↔
        x ∈ acc ∨ ∃ fa ∈ fas, x ∈ proj fa
  | [], acc => by simp
  | fa :: rest, acc => by
    rw [List.foldl_cons, setAgg_mem proj x rest _, mem_setStep]
    simp [List.mem_cons]
    tauto

theorem setAgg_nodup (proj : Analyzed → List Str) :
    ∀ (fas : List Analyzed) (acc : List Str), acc.Nodup →
      (fas.foldl (fun a fa => setStep a (proj fa)) acc).Nodup
  | [], _, h => h
  | fa :: rest, acc, h => by
    rw [List.foldl_cons]
    exact setAgg_nodup proj rest _ (setStep_nodup _ _ h)

/-! ## The lexicographic order on names -/

theorem lexLe_total : ∀ a b : Str, lexLe a b = true ∨ lexLe b a = true
  | [], b => Or.inl rfl
  | a :: as, [] => Or.inr rfl
  | a :: as, b :: bs => by
    unfold lexLe
    rcases Nat.lt_trichotomy a b with h | h | h
    · left
      rw [if_pos h]
    · subst h
      simp only [Nat.lt_irrefl, if_false]
      exact lexLe_total as bs
    · right
      rw [if_pos h]

theorem lexLe_antisymm : ∀ a b : Str, lexLe a b = true → lexLe b a = true → a = b
  | [], [], _, _ => rfl
  | [], b :: bs, _, h2 => by simp [lexLe] at h2
  | a :: as, [], h1, _ => by simp [lexLe] at h1
  | a :: as, b :: bs, h1, h2 => by
    unfold lexLe at h1 h2
    rcases Nat.lt_trichotomy a b with hab | hab | hab
    · rw [if_neg (Nat.lt_asymm hab), if_pos hab] at h2
      exact absurd h2 (by simp)
    · subst hab
      simp only [Nat.lt_irrefl, if_false] at h1 h2
      rw [lexLe_antisymm as bs h1 h2]
    · rw [if_neg (Nat.lt_asymm hab), if_pos hab] at h1
      exact absurd h1 (by simp)

theorem lexLe_trans : ∀ a b c : Str, lexLe a b = true → lexLe b c = true →
    lexLe a c = true
  | [], _, _, _, _ => rfl
  | a :: as, [], c, h1, _ => by simp [lexLe] at h1
  | a :: as, b :: bs, [], _, h2 => by simp [lexLe] at h2
  | a :: as, b :: bs, c :: cs, h1, h2 => by
    unfold lexLe at h1 h2 ⊢
    rcases Nat.lt_trichotomy a b with hab | hab | hab
    · rcases Nat.lt_trichotomy b c with hbc | hbc | hbc
      · rw [if_pos (by omega : a < c)]
      · subst hbc
        rw [if_pos hab]
      · rw [if_neg (by omega : ¬ b < c), if_pos hbc] at h2
        exact absurd h2 (by simp)
    · subst hab
      rw [if_neg (Nat.lt_irrefl a), if_neg (Nat.lt_irrefl a)] at h1
      rcases Nat.lt_trichotomy a c with hac | hac | hac
      · rw [if_pos hac]
      · subst hac
        rw [if_neg (Nat.lt_irrefl a), if_neg (Nat.lt_irrefl a)] at h2 ⊢
        exact lexLe_trans as bs cs h1 h2
      · rw [if_neg (by omega : ¬ a < c), if_pos hac] at h2
        exact absurd h2 (by simp)
    · rw [if_neg (by omega : ¬ a < b), if_pos hab] at h1
      exact absurd h1 (by simp)

theorem sortLe_lex_eq (l1 l2 : List Str) (h1 : l1.Nodup) (h2 : l2.Nodup)
    (hm : ∀ x, x ∈ l1 ↔ x ∈ l2) : sortLe lexLe l1 = sortLe lexLe l2 := by
  have hperm : l1.Perm l2 := (List.perm_ext_iff_of_nodup h1 h2).2 hm
  have hp : (sortLe lexLe l1).Perm (sortLe lexLe l2) :=
    (sortLe_perm _ _).trans (hperm.trans (sortLe_perm _ _).symm)
  haveI : IsAntisymm Str (fun a b => lexLe a b = true) :=
    ⟨fun a b => lexLe_antisymm a b⟩
  exact List.eq_of_perm_of_sorted hp
    (sortLe_sorted _ lexLe_total lexLe_trans _) (sortLe_sorted _ lexLe_total lexLe_trans _)

/-! ## C2: aggregation is invariant under permutations of the file order -/

/-- C2: permuting the (file record, content) sequence leaves every project
total unchanged — `total_loc`, `files_with_spark`, `files_with_sql`, each
connector's `total_files` and `total_instances`, each import's frequency
count — as well as the final sorted `tables` and `views` lists of
`sql_objects_summary`. -/
theorem c2_aggregation_perm_invariant (oracle : ReOracle) (cat : Config)
    (files files2 : List (FileInfo × Str)) (hp : files.Perm files2) :
    (scan oracle cat files).total_loc = (scan oracle cat files2).total_loc ∧
    (scan oracle cat files).files_with_spark = (scan oracle cat files2).files_with_spark ∧
    (scan oracle cat files).files_with_sql = (scan oracle cat files2).files_with_sql ∧
    (∀ c, (alookup (scan oracle cat files).connector_summary c).map projCE =
          (alookup (scan oracle cat files2).connector_summary c).map projCE) ∧
    (∀ imp, alookup (impSummaryOf oracle cat files) imp =
            alookup (impSummaryOf oracle cat files2) imp) ∧
    (scan oracle cat files).tables = (scan oracle cat files2).tables ∧
    (scan oracle cat files).views = (scan oracle cat files2).views := by
  have hm : (analyzedOf oracle cat files).Perm (analyzedOf oracle cat files2) :=
    hp.map _
  have ha1 : (scanFold oracle cat files).analyzed = analyzedOf oracle cat files := by
    rw [scanFold, scanFold_analyzed]
    rfl
  have ha2 : (scanFold oracle cat files2).analyzed = analyzedOf oracle cat files2 := by
    rw [scanFold, scanFold_analyzed]
    rfl
  refine ⟨?_, ?_, ?_, ?_, ?_, ?_, ?_⟩
  · show ((scanFold oracle cat files).analyzed.map (fun fa => fa.2.lines_of_code)).sum =
      ((scanFold oracle cat files2).analyzed.map (fun fa => fa.2.lines_of_code)).sum
    rw [ha1, ha2]
    exact (hm.map _).sum_eq
  · show (scanFold oracle cat files).analyzed.countP (fun fa => fa.2.has_spark) =
      (scanFold oracle cat files2).analyzed.countP (fun fa => fa.2.has_spark)
    rw [ha1, ha2]
    exact List.Perm.countP_eq _ hm
  · show (scanFold oracle cat files).analyzed.countP (fun fa => fa.2.has_sql) =
      (scanFold oracle cat files2).analyzed.countP (fun fa => fa.2.has_sql)
    rw [ha1, ha2]
    exact List.Perm.countP_eq _ hm
  · intro c
    show (alookup (scanFold oracle cat files).connSum c).map projCE =
      (alookup (scanFold oracle cat files2).connSum c).map projCE
    rw [scanFold, scanFold_connSum, scanFold, scanFold_connSum]
    rw [show initState.connSum = [] from rfl]
    rw [connAgg_alookup, connAgg_alookup]
    have hF : connFilesTot c (analyzedOf oracle cat files) =
        connFilesTot c (analyzedOf oracle cat files2) := (hm.map _).sum_eq
    have hI : connInstTot c (analyzedOf oracle cat files) =
        connInstTot c (analyzedOf oracle cat files2) := (hm.map _).sum_eq
    rw [hF, hI]
  · intro imp
    show alookup (scanFold oracle cat files).impSum imp =
      alookup (scanFold oracle cat files2).impSum imp
    rw [scanFold, scanFold_impSum, scanFold, scanFold_impSum]
    rw [show initState.impSum = [] from rfl]
    rw [impAgg_alookup, impAgg_alookup]
    have hC : impCntTot imp (analyzedOf oracle cat files) =
        impCntTot imp (analyzedOf oracle cat files2) := (hm.map _).sum_eq
    rw [hC]
  · show sortLe lexLe (scanFold oracle cat files).tblSet =
      sortLe lexLe (scanFold oracle cat files2).tblSet
    rw [scanFold, scanFold_tblSet, scanFold, scanFold_tblSet]
    rw [show initState.tblSet = [] from rfl]
    apply sortLe_lex_eq
    · exact setAgg_nodup _ _ _ List.nodup_nil
    · exact setAgg_nodup _ _ _ List.nodup_nil
    · intro x
      rw [setAgg_mem, setAgg_mem]
      constructor
      · rintro (h | ⟨fa, hfa, hx⟩)
        · exact absurd h (List.not_mem_nil x)
        · exact Or.inr ⟨fa, hm.mem_iff.1 hfa, hx⟩
      · rintro (h | ⟨fa, hfa, hx⟩)
        · exact absurd h (List.not_mem_nil x)
        · exact Or.inr ⟨fa, hm.mem_iff.2 hfa, hx⟩
  · show sortLe lexLe (scanFold oracle cat files).viewSet =
      sortLe lexLe (scanFold oracle cat files2).viewSet
    rw [scanFold, scanFold_viewSet, scanFold, scanFold_viewSet]
    rw [show initState.viewSet = [] from rfl]
    apply sortLe_lex_eq
    · exact setAgg_nodup _ _ _ List.nodup_nil
    · exact setAgg_nodup _ _ _ List.nodup_nil
    · intro x
      rw [setAgg_mem, setAgg_mem]
      constructor
      · rintro (h | ⟨fa, hfa, hx⟩)
        · exact absurd h (List.not_mem_nil x)
        · exact Or.inr ⟨fa, hm.mem_iff.1 hfa, hx⟩
      · rintro (h | ⟨fa, hfa, hx⟩)
        · exact absurd h (List.not_mem_nil x)
        · exact Or.inr ⟨fa, hm.mem_iff.2 hfa, hx⟩

/-- Witness for C2: the two witness files in both orders, with the
detected connector's totals, the shared import's count, the line totals
and the sorted table lists compared at concrete values. -/
theorem c2_aggregation_perm_invariant_witness :
    (scan trivOracle pgCat [wFileA, wFileB]).total_loc =
      (scan trivOracle pgCat [wFileB, wFileA]).total_loc ∧
    (alookup (scan trivOracle pgCat [wFileA, wFileB]).connector_summary
        "postgresql").map projCE =
      (alookup (scan trivOracle pgCat [wFileB, wFileA]).connector_summary
        "postgresql").map projCE ∧
    alookup (impSummaryOf trivOracle pgCat [wFileA, wFileB]) (str "import a") =
      alookup (impSummaryOf trivOracle pgCat [wFileB, wFileA]) (str "import a") ∧
    (scan trivOracle pgCat [wFileA, wFileB]).tables =
      (scan trivOracle pgCat [wFileB, wFileA]).tables := by
  have h := c2_aggregation_perm_invariant trivOracle pgCat [wFileA, wFileB]
    [wFileB, wFileA] (by decide)
  exact ⟨h.1, h.2.2.2.1 "postgresql", h.2.2.2.2.1 (str "import a"), h.2.2.2.2.2.1⟩

end Analyzer

